import Mathlib

/-
Shallow embedding of src/oopsie.js (an exception handling/reporting library)
and proofs about it.

Modelling conventions:
  - JavaScript values are modelled by the inductive JSVal; composite objects
    live in an explicit heap (a list of field lists) and are referenced by
    position, so reference identity and cyclic object graphs are expressible.
  - Mutation of module-level state (the error lookup, the factory table, the
    per-factory options object) is modelled by explicit state passing.
  - A JS function that can throw is modelled with Except; a JS function that
    returns undefined is modelled as returning none / JSVal.undef.
  - Numbers are modelled as Int; the special numeric values NaN, Infinity and
    -Infinity are separate constructors because the source treats them
    specially (isReallyNaN, isInfinite).
  - Note on the source text: the catch block of circularRefSafeTranslate
    (lines 251-256) is missing one closing brace; the commented-out variant of
    the very same function directly below it (lines 259-297) shows the
    intended bracketing, which is what is embedded here.  This syntax slip is
    reported with claim C2.
-/

/-- A JavaScript value.  Objects are heap references. -/
inductive JSVal where
  | undef
  | null
  | bool (b : Bool)
  | num (n : Int)
  | nan
  | inf
  | neginf
  | str (s : String)
  | fnV (name : Option String)   -- a function value; name = its own "name" property, if any
  | regexp (src : String)        -- a RegExp value (source text between the slashes)
  | obj (i : Nat)                -- reference to heap slot i
  deriving DecidableEq, Repr

/-- The object heap: slot i holds the own enumerable fields of object i, in
insertion order. -/
abbrev Heap := List (List (String × JSVal))

/-- Own enumerable fields of heap object i (a dangling reference, impossible in
the JS runtime, reads as an empty object). -/
def heapFields (heap : Heap) (i : Nat) : List (String × JSVal) :=
  (heap[i]?).getD []

/-- JavaScript truthiness. -/
def truthy : JSVal → Bool
  | .undef => false
  | .null => false
  | .bool b => b
  | .num n => n ≠ 0
  | .nan => false
  | .inf => true
  | .neginf => true
  | .str s => s ≠ ""
  | .fnV _ => true
  | .regexp _ => true
  | .obj _ => true

/-- typeof v === "object".  Note that null and RegExp values have typeof
"object" while functions have typeof "function". -/
def typeofIsObject : JSVal → Bool
  | .obj _ => true
  | .null => true
  | .regexp _ => true
  | _ => false

/-- $.inArray with strict equality: position of v in l, or none (JS: -1). -/
def jqInArrayAux (v : JSVal) : List JSVal → Nat → Option Nat
  | [], _ => none
  | x :: xs, i => if x = v then some i else jqInArrayAux v xs (i + 1)

def jqInArray (v : JSVal) (l : List JSVal) : Option Nat :=
  jqInArrayAux v l 0

/-- getFunctionName (source lines 160-173): reads the own "name" property when
present; an empty name becomes "anonymous"; with no own name property the
result is the empty string. -/
def getFunctionName (name : Option String) : String :=
  match name with
  | none => ""
  | some "" => "anonymous"
  | some n => n

/-- isReallyNaN (lines 211-218): typeof value is number and isNaN(value). -/
def isReallyNaN : JSVal → Bool
  | .nan => true
  | _ => false

/-- isInfinite (lines 220-222). -/
def isInfinite : JSVal → Bool
  | .inf => true
  | .neginf => true
  | _ => false

/-- isJQuery (lines 224-226): obj && obj.jquery (truthiness of the jquery
field).  Property reads on primitives yield undefined, hence false. -/
def isJQuery (heap : Heap) : JSVal → Bool
  | .obj i => truthy (((heapFields heap i).lookup "jquery").getD .undef)
  | _ => false

/-
Error lookup (source lines 49-83).

An oopsie error record: a JS Error object carrying the fields the factory
assigns (type, oopsie version tag, optional stackTrace) plus its message.
-/

def VERSION : String := "0.1"

structure ErrRecord where
  type : String
  message : String
  oopsie : Option String      -- the .oopsie version tag, when assigned
  stackTrace : Option String
  deriving DecidableEq, Repr

/-
The identifier-token pattern errorIdRegExp = new RegExp of
double-underscore oopsieID underscore digits double-underscore, with the
digit run as capture group 1.  Because a digit is never an underscore, the
greedy digit run followed by the literal double underscore is the only way
the pattern can match at a position, so maximal-munch matching below is
exactly the JS regex behaviour.
-/

/-- Try to match the identifier token at the head of cs.  On success returns
(whole match, digit capture, remainder). -/
def matchTokenAt (cs : List Char) : Option (List Char × List Char × List Char) :=
  let mk := "__oopsieID_".data
  if cs.take mk.length = mk then
    let afterMk := cs.drop mk.length
    let digits := afterMk.takeWhile Char.isDigit
    let afterDigits := afterMk.dropWhile Char.isDigit
    if digits ≠ [] ∧ afterDigits.take 2 = ['_', '_'] then
      some (mk ++ digits ++ ['_', '_'], digits, afterDigits.drop 2)
    else none
  else none

/-- Leftmost match of the identifier token: (text before the match, whole
match, digit capture, text after the match). -/
def findTokenSplit : List Char → Option (List Char × List Char × List Char × List Char)
  | [] => none
  | c :: cs =>
    match matchTokenAt (c :: cs) with
    | some (m, ds, rest) => some ([], m, ds, rest)
    | none =>
      match findTokenSplit cs with
      | some (p, m, ds, rest) => some (c :: p, m, ds, rest)
      | none => none

/-- parseInt(m[1], 10) on the digit capture. -/
def digitsToNat (ds : List Char) : Nat :=
  ds.foldl (fun n c => 10 * n + (c.toNat - '0'.toNat)) 0

/-- registerError (lines 53-59): prepends the identifier token carrying the
current registry length to err.message and appends the record.  The JS code
mutates err in place and stores that same object; the tagged record is
returned alongside the new registry so callers can refer to it. -/
def registerError (errors : List ErrRecord) (err : ErrRecord) :
    List ErrRecord × ErrRecord :=
  let pos := errors.length
  let tagged := { err with message := "__oopsieID_" ++ toString pos ++ "__" ++ err.message }
  (errors ++ [tagged], tagged)

/-- retrieveError (lines 61-74), transcribed as written: after parsing the
embedded integer the source tests `errors.length <= pos` (not `pos <
errors.length`) before returning errors[pos].  In JS, errors[pos] with pos
out of range evaluates to undefined (none here); for an in-range pos the
function falls through to `return null` (also none here). -/
def retrieveError (errors : List ErrRecord) (msg : String) : Option ErrRecord :=
  match findTokenSplit msg.data with
  | some (_, _, ds, _) =>
    let pos := digitsToNat ds
    if errors.length ≤ pos then
      errors[pos]?        -- JS: return errors[pos]  (undefined when out of range)
    else
      none                -- falls through to return null
  | none => none

/-- First occurrence of the literal pattern pat in a character list is
replaced by repl; no occurrence leaves the list unchanged.  This is
String.replace with a string pattern, as used at line 79. -/
def replaceFirstAux (pat repl : List Char) : List Char → List Char
  | [] => []
  | c :: cs =>
    if (c :: cs).take pat.length = pat then repl ++ (c :: cs).drop pat.length
    else c :: replaceFirstAux pat repl cs

/-- filterOutOopsieId (lines 76-83): if the token pattern matches, remove the
first occurrence of the matched substring; otherwise return the message
unchanged.  (The leftmost literal occurrence of the matched text coincides
with the regex match, since any literal occurrence is itself a regex match.) -/
def filterOutOopsieId (msg : String) : String :=
  match findTokenSplit msg.data with
  | some (_, m, _, _) => String.mk (replaceFirstAux m [] msg.data)
  | none => msg

/-
Stringify (source lines 158-330): JSON.stringify with the replacer returned
by circularRefSafeTranslate, over the extensible translator table.
-/

/-- A registered translator: the (evaluator, translator) function pair stored
by addTranslator.  Both may throw; a thrown error is modelled by Except with
the error message as payload. -/
structure Translator where
  pred : Heap → JSVal → Except String Bool
  transform : Heap → JSVal → Except String JSVal

/-- The translator table: the plain object "translators", iterated by for..in
in insertion order; addTranslator assigns translators[name] = pair. -/
abbrev TransTable := List (String × Translator)

/-- Assignment to a key of a plain JS object: an existing key keeps its
position and gets the new value, a new key is appended. -/
def setAssoc {α : Type} (l : List (String × α)) (k : String) (v : α) :
    List (String × α) :=
  if (l.lookup k).isSome then
    l.map (fun kv => if kv.1 = k then (k, v) else kv)
  else
    l ++ [(k, v)]

/-- The translator loop in circularRefSafeTranslate (lines 242-249): first
translator whose evaluator returns true wins; its transform result replaces
the value; no match passes the value through. -/
def runTranslators (heap : Heap) : TransTable → JSVal → Except String JSVal
  | [], v => .ok v
  | t :: ts, v =>
    match t.2.pred heap v with
    | .error m => .error m
    | .ok true => t.2.transform heap v
    | .ok false => runTranslators heap ts v

/-- The translator loop wrapped by the try/catch: a thrown error degrades the
node to the inline failure string (line 255). -/
def applyTranslators (ts : TransTable) (heap : Heap) (v : JSVal) : JSVal :=
  match runTranslators heap ts v with
  | .ok rv => rv
  | .error m => .str ("[translation error]: " ++ m)

/-- One call of the replacer returned by circularRefSafeTranslate
(lines 229-257, with the missing close brace of the catch block restored):
typeof-object values already in the seen list become the circular-reference
placeholder carrying their seen-position; unseen ones are pushed; then the
translator table is evaluated in order.  The seen list, a closure variable in
the source, is threaded explicitly. -/
def circularRefSafeTranslate (ts : TransTable) (heap : Heap)
    (seen : List JSVal) (v : JSVal) : List JSVal × JSVal :=
  if typeofIsObject v then
    match jqInArray v seen with
    | some seenAt => (seen, .str ("JSON.circularRef_" ++ toString seenAt))
    | none => (seen ++ [v], applyTranslators ts heap v)
  else
    (seen, applyTranslators ts heap v)

/-- JSON string escaping as JSON.stringify performs it. -/
def jsonEscapeChar (c : Char) : List Char :=
  if c = '"' then ['\\', '"']
  else if c = '\\' then ['\\', '\\']
  else if c = '\x08' then ['\\', 'b']
  else if c = '\x0c' then ['\\', 'f']
  else if c = '\n' then ['\\', 'n']
  else if c = '\r' then ['\\', 'r']
  else if c = '\t' then ['\\', 't']
  else if c.toNat < 32 then
    let hx := fun (n : Nat) => (Nat.toDigits 16 n)
    '\\' :: 'u' :: '0' :: '0' :: (if c.toNat < 16 then '0' :: hx c.toNat else hx c.toNat)
  else [c]

def jsonQuote (s : String) : String :=
  String.mk ('"' :: s.data.foldr (fun c acc => jsonEscapeChar c ++ acc) ['"'])

/--
The JSON.stringify walk (gap ""), specialised to the replacer above:
serProp serializes one value position, serFieldsWith walks the own fields of
an object with a given per-value serializer.  The result is none when the
recursion fuel runs out (standing in for non-termination of the JS walk —
serProp_total below proves this never happens for the fuel stringify uses),
some none when the position is dropped (the replaced value is undefined or a
function, which JSON.stringify omits), and some (some s) for an encoded text.
-/
def serFieldsWith (ser : List JSVal → JSVal → Option (Option String) × List JSVal) :
    List JSVal → List (String × JSVal) → Option (List String) × List JSVal
  | seen, [] => (some [], seen)
  | seen, kv :: rest =>
    match ser seen kv.2 with
    | (none, seen2) => (none, seen2)
    | (some none, seen2) => serFieldsWith ser seen2 rest
    | (some (some s), seen2) =>
      match serFieldsWith ser seen2 rest with
      | (none, seen3) => (none, seen3)
      | (some items, seen3) => (some ((jsonQuote kv.1 ++ ":" ++ s) :: items), seen3)

def serProp (ts : TransTable) (heap : Heap) :
    Nat → List JSVal → JSVal → Option (Option String) × List JSVal
  | 0, seen, _ => (none, seen)
  | fuel + 1, seen, v =>
    let stepped := circularRefSafeTranslate ts heap seen v
    match stepped.2 with
    | .obj i =>
      match serFieldsWith (serProp ts heap fuel) stepped.1 (heapFields heap i) with
      | (none, seen2) => (none, seen2)
      | (some items, seen2) =>
        (some (some ("\x7b" ++ String.intercalate "," items ++ "\x7d")), seen2)
    | .undef => (some none, stepped.1)          -- dropped by JSON.stringify
    | .fnV _ => (some none, stepped.1)          -- dropped by JSON.stringify
    | .null => (some (some "null"), stepped.1)
    | .bool b => (some (some (cond b "true" "false")), stepped.1)
    | .num n => (some (some (toString n)), stepped.1)
    | .nan => (some (some "null"), stepped.1)   -- JSON renders non-finite numbers as null
    | .inf => (some (some "null"), stepped.1)
    | .neginf => (some (some "null"), stepped.1)
    | .str s => (some (some (jsonQuote s)), stepped.1)
    | .regexp _ => (some (some ("\x7b" ++ "\x7d")), stepped.1)
      -- an untranslated RegExp has no own enumerable fields

/-- Fuel that serProp_total proves sufficient: the walk only descends into a
heap object the first time it is seen, so nesting depth is bounded by the
number of heap objects. -/
def stringifyFuel (heap : Heap) : Nat := heap.length + 2

/-- stringify (lines 322-328): JSON.stringify(o, circularRefSafeTranslate(),
"").  Result none models JSON.stringify returning undefined (top-level value
dropped) and — unreachably, by serProp_total — fuel exhaustion.  The catch
branch returning a "stringify error: " text is dead in this model: the
replacer catches its own failures, cycles are cut before JSON.stringify could
detect them, and no other exception source exists at this call. -/
def stringify (ts : TransTable) (heap : Heap) (v : JSVal) : Option String :=
  match serProp ts heap (stringifyFuel heap) [] v with
  | (some r, _) => r
  | (none, _) => none

/-- The environment-supplied serialization of a jQuery-wrapped DOM fragment
(jQueryToString, lines 175-209): out of scope per the spec, abstracted as an
arbitrary fallible string-producing function. -/
abbrev JQSer := Heap → JSVal → Except String String

/-- A trivial jQueryToString stand-in for concrete evaluations (never reached
on values without a truthy jquery field). -/
def noJq : JQSer := fun _ _ => Except.ok ""

/-- The six default translators, registered in source order (lines 308-320). -/
def defaultTranslatorTable (jq : JQSer) : TransTable :=
  [ ("undefined",
      { pred := fun _ v => .ok (v = JSVal.undef),
        transform := fun _ _ => .ok (.str "undefined") }),
    ("function",
      { pred := fun _ v => .ok (match v with | .fnV _ => true | _ => false),
        transform := fun _ v =>
          .ok (.str (match v with
            | .fnV name =>
              let fnName := getFunctionName name
              if fnName ≠ "" then "[function: " ++ fnName ++ "]" else "[function]"
            | _ => "[function]")) }),
    ("RegExp",
      { pred := fun _ v => .ok (match v with | .regexp _ => true | _ => false),
        transform := fun _ v =>
          .ok (.str (match v with | .regexp src => "/" ++ src ++ "/" | _ => "")) }),
    ("NaN",
      { pred := fun _ v => .ok (isReallyNaN v),
        transform := fun _ _ => .ok (.str "NaN") }),
    ("infinite",
      { pred := fun _ v => .ok (isInfinite v),
        transform := fun _ v =>
          .ok (.str (match v with | .neginf => "-Infinity" | _ => "Infinity")) }),
    ("jQuery",
      { pred := fun heap v => .ok (isJQuery heap v),
        transform := fun heap v =>
          match jq heap v with
          | .ok s => .ok (.str ("[jQuery: " ++ s ++ "]"))
          | .error m => .error m }) ]

/-
Exception creation (source lines 87-127) and asserting (lines 489-520).
-/

/-- The factory options object: reportImmediately is its only key. -/
structure Options where
  reportImmediately : Bool
  deriving DecidableEq, Repr

/-- A caller-supplied options object: present keys override. -/
structure OptionsPatch where
  reportImmediately : Option Bool := none
  deriving DecidableEq, Repr

/-- $.extend(target, source) restricted to this key set: keys present in
source overwrite target; the RESULT IS THE MUTATED TARGET OBJECT, which is
what line 107 stores back into the factory closure. -/
def extendOptions (target : Options) (source : OptionsPatch) : Options :=
  { reportImmediately := source.reportImmediately.getD target.reportImmediately }

/-- Fields of a caller-written options object literal, for stringification. -/
def optionsPatchFields (p : OptionsPatch) : List (String × JSVal) :=
  match p.reportImmediately with
  | some b => [("reportImmediately", JSVal.bool b)]
  | none => []

/-- The module-level mutable state the error-creation code touches: the error
lookup array and the factory table (each factory identified by its type and
carrying its current factoryOptions closure variable).  canStackTrace and the
text the external stack-capture collaborator would produce are environment
facts, carried here unchanged. -/
structure OopsieState where
  errors : List ErrRecord
  factories : List (String × Options)
  canStackTrace : Bool
  stackTraceValue : String
  deriving DecidableEq, Repr

/-- Replace the stored factoryOptions of factory ty (position preserved). -/
def updateFactoryOptions (l : List (String × Options)) (ty : String) (o : Options) :
    List (String × Options) :=
  l.map (fun kv => if kv.1 = ty then (ty, o) else kv)

/-- new Error(msg): an undefined message argument leaves message empty. -/
def newErrorMessage : Option String → String
  | none => ""
  | some s => s

/-- String coercion used by string concatenation: undefined renders as the
text undefined. -/
def jsStringCoerce : Option String → String
  | none => "undefined"
  | some s => s

/-- Invoking the factory closure built at lines 106-122 for type ty:
_opts = $.extend(factoryOptions, opts || \x7b\x7d) — NOTE this mutates the
stored factoryOptions; a record is built and registered; the closure body has
NO return statement, so the call returns undefined (the none in the result).
An unregistered ty (unreachable through makeError) does nothing. -/
def factoryCall (st : OopsieState) (ty : String) (msg : Option String)
    (opts : Option OptionsPatch) : OopsieState × Option ErrRecord :=
  match st.factories.lookup ty with
  | none => (st, none)
  | some factoryOptions =>
    let mOpts := extendOptions factoryOptions (opts.getD {})
    let st1 := { st with factories := updateFactoryOptions st.factories ty mOpts }
    let err : ErrRecord :=
      { type := ty
        message := newErrorMessage msg
        oopsie := some VERSION
        stackTrace := if st1.canStackTrace then some st1.stackTraceValue else none }
    -- if (_opts.reportImmediately) ... is an empty TODO branch in the source
    let regd := registerError st1.errors err
    ({ st1 with errors := regd.1 }, none)

/-- makeError (lines 89-97): dispatch to the registered factory, or rewrite
the message to note the unknown type and use the oopsieError factory. -/
def makeError (st : OopsieState) (ty : String) (msg : Option String)
    (opts : Option OptionsPatch) : OopsieState × Option ErrRecord :=
  if (st.factories.lookup ty).isSome then
    factoryCall st ty msg opts
  else
    let msg1 := "[oopsie.makeError] unknown error type\ntype = \"" ++ ty ++ "\"\n"
      ++ jsStringCoerce msg
    factoryCall st "oopsieError" (some msg1) opts

/-- The value a failed assert throws.  assert throws
makeError("assertionError", msg), and the factory returns undefined, so the
thrown value is the undefined value. -/
inductive JSThrown where
  | undefVal
  deriving DecidableEq, Repr

/-- Array.join renders an undefined element as empty text. -/
def joinElemStr (o : Option String) : String := o.getD ""

/-- The failing branch of assert (lines 494-514): each message argument is
stringified, the pieces joined with newlines, and makeError("assertionError",
msg) is thrown.  The dev alert/debug hooks default to disabled and are
omitted.  tbl/argHeap carry the ambient translator table and the heap of the
argument values. -/
def assertFail (st : OopsieState) (tbl : TransTable) (argHeap : Heap)
    (msgArgs : List JSVal) : OopsieState × JSThrown :=
  let msg := String.intercalate "\n"
    (msgArgs.map (fun a => joinElemStr (stringify tbl argHeap a)))
  let st1 := (makeError st "assertionError" (some msg) none).1
  (st1, JSThrown.undefVal)

/-- errorFactory (lines 99-127): asserts the type is not already registered
(throwing via assertFail on a duplicate, without storing anything in the
factory table), else builds factoryOptions over the default and registers the
factory closure.  tbl is the ambient translator table assert would use. -/
def errorFactory (st : OopsieState) (tbl : TransTable) (ty : String)
    (options : Option OptionsPatch) : OopsieState × Except JSThrown Unit :=
  if (st.factories.lookup ty).isSome then
    let argHeap : Heap := match options with | some p => [optionsPatchFields p] | none => []
    let optVal : JSVal := match options with | some _ => JSVal.obj 0 | none => JSVal.undef
    let failed := assertFail st tbl argHeap
      [JSVal.str "error factory already exists", JSVal.str ty, optVal]
    (failed.1, .error failed.2)
  else
    let factoryOptions := extendOptions { reportImmediately := false } (options.getD {})
    ({ st with factories := st.factories ++ [(ty, factoryOptions)] }, .ok ())

/-- addTranslator (lines 302-305): asserts a truthy name and two functions
(the latter hold by construction here), then assigns
translators[name] = [evaluator, translator] — overwriting any existing entry
for that name without complaint. -/
def addTranslator (st : OopsieState) (tbl : TransTable) (name : String)
    (evaluator : Heap → JSVal → Except String Bool)
    (translator : Heap → JSVal → Except String JSVal) :
    (OopsieState × TransTable) × Except JSThrown Unit :=
  if name ≠ "" then
    ((st, setAssoc tbl name { pred := evaluator, transform := translator }), .ok ())
  else
    let failed := assertFail st tbl []
      [JSVal.str "[oopsie.addTranslator] requires a name, an evaluator function and a translator function"]
    ((failed.1, tbl), .error failed.2)

/-- The module state after initialization (lines 655-657): the three built-in
factories in registration order, no errors yet.  Whether the external
stack-capture collaborator exists (canStackTrace) and what it would return
are environment inputs. -/
def initState (canST : Bool) (stv : String) : OopsieState :=
  { errors := []
    factories :=
      [ ("assertionError", { reportImmediately := false })
      , ("javascriptError", { reportImmediately := false })
      , ("oopsieError", { reportImmediately := false }) ]
    canStackTrace := canST
    stackTraceValue := stv }

/-
Audit wrappers (source lines 413-453).
-/

/-- Property read v.k: throws a TypeError on undefined and null, reads the
heap field of an object (absent fields are undefined), and yields undefined
on other primitives.  The catch at line 446 never inspects the thrown
secondary error, so the failure payload is Unit. -/
def readMember (heap : Heap) (v : JSVal) (k : String) : Except Unit JSVal :=
  match v with
  | .undef => .error ()
  | .null => .error ()
  | .obj i => .ok (((heapFields heap i).lookup k).getD JSVal.undef)
  | _ => .ok (JSVal.undef)

/-- Array.join element coercion (undefined and null join as empty text). -/
def jsJoinElem (v : JSVal) : String :=
  match v with
  | .undef => ""
  | .null => ""
  | .str s => s
  | .bool b => cond b "true" "false"
  | .num n => toString n
  | .nan => "NaN"
  | .inf => "Infinity"
  | .neginf => "-Infinity"
  | .regexp src => "/" ++ src ++ "/"
  | .fnV _ => "function"        -- source text of the function; unreached below
  | .obj _ => "[object Object]" -- default toString; unreached below

/-- The try block inside the catch of audit (lines 426-445).  Steps:
newError = err; if typeof newError is not object, newError =
makeError("oopsieError", msg) — msg is STILL UNDEFINED at that point, and
makeError returns undefined because the factory has no return statement
(makeError_returns_undefined below), so newError becomes undefined while an
oopsieError record with empty raw message is registered as a side effect.
Then the msg array is built: reading newError.message throws a TypeError when
newError is undefined; stringify(arguments) always yields a value;
context.toString() is host behaviour, passed in as ctxToString.  Finally the
source assigns newError.message = message — but the identifier in scope is
named msg, not message, so under the strict mode directive at line 12 this
read throws a ReferenceError.  Hence the try block NEVER completes. -/
def auditTryAugment (st : OopsieState) (tbl : TransTable) (heap : Heap)
    (err : JSVal) (name : String) (argsObj : JSVal)
    (ctxToString : Except Unit String) : OopsieState × Except Unit JSVal :=
  let converted :=
    if typeofIsObject err then (st, err)
    else
      ((makeError st "oopsieError" none none).1, JSVal.undef)
  let st1 := converted.1
  let newError := converted.2
  match readMember heap newError "message" with
  | .error _ => (st1, .error ())
  | .ok m0 =>
    let _msgParts : List String :=
      [ jsJoinElem m0
      , "[" ++ name ++ "]"
      , "Arguments:"
      , joinElemStr (stringify tbl heap argsObj)
      , "toString:" ]
    match ctxToString with
    | .error _ => (st1, .error ())
    | .ok _ctxStr =>
      -- newError.message = message;  — message is undeclared (the variable is
      -- msg): a strict-mode ReferenceError, so the block throws here
      (st1, .error ())

/-- audit (lines 413-453): the wrapper around one invocation of fn.
fnResult is what fn.apply(context, arguments) did: ok r for a normal return
(passed through unchanged), error e for a thrown value e.  On a throw the
inner try builds the augmented error; if that try itself throws — which
auditTryAugment shows always happens — the catch at line 446 rethrows the
ORIGINAL err.  The result is the state plus what the wrapped call does. -/
def audit (st : OopsieState) (tbl : TransTable) (heap : Heap) (name : String)
    (fnResult : Except JSVal JSVal) (argsObj : JSVal)
    (ctxToString : Except Unit String) : OopsieState × Except JSVal JSVal :=
  match fnResult with
  | .ok r => (st, .ok r)
  | .error err =>
    match auditTryAugment st tbl heap err name argsObj ctxToString with
    | (st1, .ok newError) => (st1, .error newError)   -- throw newError
    | (st1, .error _) => (st1, .error err)            -- throw err (the original)

/-
Error reporting (source lines 574-629).
-/

/-- What a before hook does with the defer it is handed: resolve it (with
extra arguments), reject it (cancel), or leave it unsettled forever. -/
inductive GateOutcome where
  | resolved (extraArgs : List JSVal)
  | rejected
  | pending
  deriving DecidableEq, Repr

/-- A handler field: a function whose gate behaviour is given, or a
non-callable value (the $.isFunction checks at lines 619 and 624 care). -/
inductive HookVal where
  | fn (g : GateOutcome)
  | nonFn
  deriving DecidableEq, Repr

inductive AfterVal where
  | fn
  | nonFn
  deriving DecidableEq, Repr

structure Handler where
  before : HookVal
  after : AfterVal
  deriving DecidableEq, Repr

/-- defaultHandler (lines 575-581): before resolves the defer with no
arguments; after is $.noop (a function). -/
def defaultHandler : Handler :=
  { before := .fn (.resolved []), after := .fn }

/-- A caller-supplied handler object for addHandler: absent fields fall back
to the default handler. -/
structure HandlerPatch where
  before : Option HookVal := none
  after : Option AfterVal := none

/-- addHandler (lines 584-588): handler = $.extend(\x7b\x7d, defaultHandler,
o || \x7b\x7d); reportHandlers[name] = handler. -/
def addHandler (table : List (String × Handler)) (name : String)
    (o : HandlerPatch) : List (String × Handler) :=
  setAssoc table name
    { before := o.before.getD defaultHandler.before
      after := o.after.getD defaultHandler.after }

/-- Observable outcome of one reportError call: the invocations of the
externally supplied reporter (oopsie.report.reporter), whether
handler.after() ran, and whether a TypeError escaped the done callback. -/
structure PipelineResult where
  reporterCalls : List (Option ErrRecord × List JSVal)
  afterCalled : Bool
  threw : Bool
  deriving DecidableEq, Repr

/-- The done callback registered at lines 613-622, run when the defer is
resolved, with the resolution arguments as extraArgs.  Its first statement is
oopsie.report.apply(oopsie, [err].concat(extraArgs)) — but oopsie.report is
the plain namespace object defined at lines 704-707 (fields reporter and
addHandler), not a function: its .apply member is undefined, so this line
throws a TypeError.  The externally supplied reporter, oopsie.report.reporter,
is referenced nowhere in the reporting path, and the handler.after() call
below the throwing line is never reached. -/
def reportDoneCallback (_err : Option ErrRecord) (_extraArgs : List JSVal)
    (_afterV : AfterVal) : PipelineResult :=
  { reporterCalls := [], afterCalled := false, threw := true }

/-- reportError (lines 594-629).  The handler lookup is wrapped in
try/catch/finally: err.type on an undefined err throws, is swallowed, and the
finally merges the (possibly undefined) handler over defaultHandler.  A defer
is created, the done callback attached, and then: a callable before drives
the defer per its gate behaviour; a non-callable before means the defer is
resolved immediately with no arguments.  A rejected or never-settled defer
never runs the done callback. -/
def reportError (table : List (String × Handler)) (err : Option ErrRecord) :
    PipelineResult :=
  let handler0 : Option Handler :=
    match err with
    | some e => table.lookup e.type
    | none => none
  let handler := handler0.getD defaultHandler
  match handler.before with
  | .fn (.resolved extraArgs) => reportDoneCallback err extraArgs handler.after
  | .fn .rejected => { reporterCalls := [], afterCalled := false, threw := false }
  | .fn .pending => { reporterCalls := [], afterCalled := false, threw := false }
  | .nonFn => reportDoneCallback err [] handler.after

/-
Auxiliary notions for the serializer termination proof: well-formed heaps
(all object references in range) and the invariant of the seen list.
-/

/-- Object references inside v point into the heap. -/
def wfValB (heap : Heap) : JSVal → Bool
  | .obj i => i < heap.length
  | _ => true

/-- Every field value of every heap object is well formed. -/
def heapWFB (heap : Heap) : Bool :=
  heap.all (fun fields => fields.all (fun kv => wfValB heap kv.2))

/-- The heap indices recorded in the seen list. -/
def objIdxs (seen : List JSVal) : List Nat :=
  seen.filterMap (fun v => match v with | JSVal.obj i => some i | _ => none)

/-- Number of distinct heap objects recorded as seen. -/
def countObjs (seen : List JSVal) : Nat := (objIdxs seen).length

/-- Invariant of the seen list: recorded heap indices are distinct and in
range. -/
def SeenInv (heap : Heap) (seen : List JSVal) : Prop :=
  (objIdxs seen).Nodup ∧ ∀ i ∈ objIdxs seen, i < heap.length

/-
Theorems.  Helper lemmas come first, then one theorem per claim (with its
witness or counterexample where called for).
-/

/-- The factory closure has no return statement, so makeError never returns a
record: every call yields undefined. -/
theorem makeError_returns_undefined (st : OopsieState) (ty : String)
    (msg : Option String) (opts : Option OptionsPatch) :
    (makeError st ty msg opts).2 = none := by
  unfold makeError factoryCall
  split <;> (try split) <;> simp

/-- Helper: stripping is the identity on text the token pattern does not
match. -/
theorem filterOutOopsieId_no_match (y : String)
    (h : findTokenSplit y.data = none) : filterOutOopsieId y = y := by
  unfold filterOutOopsieId
  rw [h]

/-- Helper: List.lookup on a cons cell, in if-then-else form. -/
theorem lookup_cons_ite {α : Type} (k a : String) (b : α) (tl : List (String × α)) :
    List.lookup k ((a, b) :: tl) = if k = a then some b else List.lookup k tl := by
  rw [List.lookup_cons]
  by_cases h : k = a
  · subst h
    simp
  · rw [show (k == a) = false from beq_eq_false_iff_ne.mpr h, if_neg h]

/-- Helper: looking up after the in-place update of the entries with key ty. -/
theorem lookup_map_update {α : Type} (l : List (String × α)) (ty k : String) (o : α) :
    (l.map (fun kv => if kv.1 = ty then (ty, o) else kv)).lookup k
      = if k = ty then (l.lookup ty).map (fun _ => o) else l.lookup k := by
  induction l with
  | nil => by_cases hk : k = ty <;> simp [List.lookup, hk]
  | cons hd tl ih =>
    obtain ⟨a, b⟩ := hd
    simp only [List.map_cons]
    by_cases ha : a = ty
    · rw [show (if (a, b).1 = ty then (ty, o) else (a, b)) = (ty, o) from if_pos ha]
      subst ha
      rw [lookup_cons_ite, lookup_cons_ite, ih]
      by_cases hk : k = a <;> simp [hk, lookup_cons_ite]
    · rw [show (if (a, b).1 = ty then (ty, o) else (a, b)) = (a, b) from if_neg ha]
      rw [lookup_cons_ite, lookup_cons_ite, ih]
      by_cases hk : k = a
      · subst hk
        simp [ha]
      · by_cases hty : k = ty <;> simp [hk, hty, lookup_cons_ite, Ne.symm ha]

/-- Helper: appending a fresh binding is found when the key was absent. -/
theorem lookup_append_fresh {α : Type} (l : List (String × α)) (k : String) (v : α)
    (h : l.lookup k = none) : (l ++ [(k, v)]).lookup k = some v := by
  induction l with
  | nil => simp [List.lookup]
  | cons hd tl ih =>
    obtain ⟨a, b⟩ := hd
    rw [lookup_cons_ite] at h
    by_cases hk : k = a
    · simp [hk] at h
    · rw [if_neg hk] at h
      simpa [List.cons_append, lookup_cons_ite, hk] using ih h

/-- Helper: lookup after the JS-object-style assignment setAssoc finds the
assigned value. -/
theorem lookup_setAssoc_self {α : Type} (l : List (String × α)) (k : String) (v : α) :
    (setAssoc l k v).lookup k = some v := by
  unfold setAssoc
  by_cases hs : (l.lookup k).isSome
  · rw [if_pos hs, lookup_map_update, if_pos rfl]
    obtain ⟨w, hw⟩ := Option.isSome_iff_exists.mp hs
    simp [hw]
  · rw [if_neg hs]
    exact lookup_append_fresh l k v (Option.not_isSome_iff_eq_none.mp hs)

/-- Helper: a factory call with no caller options leaves every factory-table
lookup unchanged (the stored options object is extended with nothing). -/
theorem factoryCall_preserves_factories_lookup (st : OopsieState) (ty k : String)
    (msg : Option String) :
    ((factoryCall st ty msg none).1.factories.lookup k) = st.factories.lookup k := by
  unfold factoryCall
  cases h : st.factories.lookup ty with
  | none => simp
  | some v =>
    have hv : extendOptions v (Option.getD none {}) = v := rfl
    simp only [updateFactoryOptions, hv, lookup_map_update]
    by_cases hk : k = ty
    · subst hk
      simp [h]
    · simp [hk]

/-- Helper: the same holds through makeError. -/
theorem makeError_preserves_factories_lookup (st : OopsieState) (ty k : String)
    (msg : Option String) :
    ((makeError st ty msg none).1.factories.lookup k) = st.factories.lookup k := by
  unfold makeError
  split
  · exact factoryCall_preserves_factories_lookup st ty k msg
  · exact factoryCall_preserves_factories_lookup st "oopsieError" k _

/-- Claim C1 (evidence of the code bug): the round trip fails because the
bounds check in retrieveError is inverted.  Registering a record into an
empty registry yields the tagged record at position 0, yet retrieveError on
its own displayed message returns none (the source compares
errors.length <= pos and only then returns errors[pos], which is undefined
exactly when that test holds; an in-range id falls through to return null).
Text with no identifier token also returns none, as the claim states. -/
theorem retrieveError_roundtrip_fails_eval :
    (registerError []
        { type := "networkError", message := "timeout", oopsie := some VERSION, stackTrace := none }).1
      = [{ type := "networkError", message := "__oopsieID_0__timeout",
           oopsie := some VERSION, stackTrace := none }] ∧
    retrieveError
        [{ type := "networkError", message := "__oopsieID_0__timeout",
           oopsie := some VERSION, stackTrace := none }]
        "__oopsieID_0__timeout" = none ∧
    retrieveError
        [{ type := "networkError", message := "__oopsieID_0__timeout",
           oopsie := some VERSION, stackTrace := none }]
        "timeout" = none := by
  refine ⟨by decide, by decide, by decide⟩

/-- Claim C3 (evidence of the code bug): a plain non-record thrown value is
rethrown untouched by the audit wrapper, not replaced by a classified record.
Wrapping a call that throws the plain text boom: the wrapped call rethrows
exactly that text (no label, no Arguments:, no serialized arguments), while a
stray oopsieError record with empty raw message is registered as a side
effect of the half-finished conversion. -/
theorem audit_rethrows_original_plain_value_eval :
    (audit (initState false "") (defaultTranslatorTable noJq) [] "myLabel"
        (Except.error (JSVal.str "boom")) JSVal.null (Except.ok "[object Object]")).2
      = Except.error (JSVal.str "boom") ∧
    (audit (initState false "") (defaultTranslatorTable noJq) [] "myLabel"
        (Except.error (JSVal.str "boom")) JSVal.null (Except.ok "[object Object]")).1.errors
      = [{ type := "oopsieError", message := "__oopsieID_0__",
           oopsie := some VERSION, stackTrace := none }] := by
  refine ⟨rfl, by decide⟩

/-- Claim C4: whenever the normalization/augmentation block inside the audit
wrapper throws, the wrapped function re-raises the original thrown value
unmodified (the catch at line 446 rethrows err, the untouched original). -/
theorem audit_augment_failure_rethrows_original (st : OopsieState)
    (tbl : TransTable) (heap : Heap) (err : JSVal) (name : String)
    (argsObj : JSVal) (cts : Except Unit String)
    (h : (auditTryAugment st tbl heap err name argsObj cts).2 = Except.error ()) :
    (audit st tbl heap name (Except.error err) argsObj cts).2 = Except.error err := by
  rcases hA : auditTryAugment st tbl heap err name argsObj cts with ⟨st1, r⟩
  have hred : audit st tbl heap name (Except.error err) argsObj cts
      = match auditTryAugment st tbl heap err name argsObj cts with
        | (s1, Except.ok newError) => (s1, Except.error newError)
        | (s1, Except.error _) => (s1, Except.error err) := rfl
  rw [hA] at h
  rw [hred, hA]
  cases r with
  | ok v => exact Except.noConfusion h
  | error e => rfl

/-- Witness for C4 at a concrete input: augmentation does throw there, and the
wrapped call rethrows the original value. -/
theorem audit_augment_failure_witness :
    (auditTryAugment (initState false "") (defaultTranslatorTable noJq) []
        (JSVal.str "boom") "f" JSVal.null (Except.ok "ctx")).2 = Except.error () ∧
    (audit (initState false "") (defaultTranslatorTable noJq) [] "f"
        (Except.error (JSVal.str "boom")) JSVal.null (Except.ok "ctx")).2
      = Except.error (JSVal.str "boom") :=
  ⟨rfl,
   audit_augment_failure_rethrows_original _ _ _ _ _ _ _ rfl⟩

/-- Claim C5 (evidence of the code bug): with the default handler (whose
before hook resolves the gate) the done callback runs, but its call of
oopsie.report — the namespace object, not the externally supplied reporter
oopsie.report.reporter — throws a TypeError: the reporter is invoked zero
times, not once, and the after hook never runs. -/
theorem reportError_resolved_gate_throws_eval :
    reportError []
        (some { type := "networkError", message := "__oopsieID_0__timeout",
                oopsie := some VERSION, stackTrace := none })
      = { reporterCalls := [], afterCalled := false, threw := true } := by
  decide

/-- Claim C6: when the handler before hook rejects the gate, the done
callback never runs: the external reporter is not invoked and the after hook
is not invoked (and no secondary failure escapes either). -/
theorem reportError_rejected_skips_reporter_and_after
    (table : List (String × Handler)) (err : ErrRecord) (h : Handler)
    (hLookup : table.lookup err.type = some h)
    (hRej : h.before = HookVal.fn GateOutcome.rejected) :
    (reportError table (some err)).reporterCalls = [] ∧
    (reportError table (some err)).afterCalled = false := by
  unfold reportError
  simp [hLookup, hRej]

/-- Witness for C6: a handler registered through addHandler with a rejecting
before hook skips the reporter and the after hook. -/
theorem reportError_rejected_witness :
    (reportError
        (addHandler [] "t" { before := some (HookVal.fn GateOutcome.rejected) })
        (some { type := "t", message := "m", oopsie := some VERSION, stackTrace := none })).reporterCalls = [] ∧
    (reportError
        (addHandler [] "t" { before := some (HookVal.fn GateOutcome.rejected) })
        (some { type := "t", message := "m", oopsie := some VERSION, stackTrace := none })).afterCalled = false :=
  reportError_rejected_skips_reporter_and_after _ _
    { before := HookVal.fn GateOutcome.rejected, after := AfterVal.fn }
    (by decide) (by decide)

/-- Claim C7 (evidence of the code bug): makeError on an unknown type does
route to the generic oopsieError factory and registers a record of that type
whose message names the unknown type and carries the original message — but
the factory body has no return statement, so makeError returns undefined
instead of that usable record. -/
theorem makeError_unknown_type_returns_undefined_eval :
    (makeError (initState false "") "doesNotExist" (some "boom") none).2 = none ∧
    (makeError (initState false "") "doesNotExist" (some "boom") none).1.errors
      = [{ type := "oopsieError",
           message := "__oopsieID_0__[oopsie.makeError] unknown error type\ntype = \"doesNotExist\"\nboom",
           oopsie := some VERSION, stackTrace := none }] := by
  refine ⟨by decide, by decide⟩

/-- Claim C8, counterexample to the claim as stated: registering a second
translator under an already-used name does NOT fail — the call returns
normally and silently replaces the stored translator (observable through the
transform now stored under that name). -/
theorem addTranslator_duplicate_overwrites_counterexample :
    (let tbl1 := ((addTranslator (initState false "") [] "t"
        (fun _ _ => Except.ok true) (fun _ _ => Except.ok (JSVal.str "one"))).1).2
     let second := addTranslator (initState false "") tbl1 "t"
        (fun _ _ => Except.ok true) (fun _ _ => Except.ok (JSVal.str "two"))
     second.2 = Except.ok () ∧
       ((((second.1).2).lookup "t").map (fun t => t.transform [] JSVal.null))
         = some (Except.ok (JSVal.str "two"))) :=
  ⟨rfl, rfl⟩

/-- Claim C8 as amended: registering a second factory under an already-used
type name fails loudly at registration time — the assert throws (the thrown
value being undefined, since the assertionError factory returns undefined)
and the factory table keeps its existing entry — whereas registering a second
translator under an existing name does not fail at all: it returns normally
and silently overwrites the stored translator. -/
theorem duplicate_registration_amended
    (st : OopsieState) (tbl : TransTable) (ty : String) (options : Option OptionsPatch)
    (hDup : (st.factories.lookup ty).isSome = true)
    (tbl2 : TransTable) (name : String)
    (e1p e2p : Heap → JSVal → Except String Bool)
    (e1t e2t : Heap → JSVal → Except String JSVal)
    (hName : name ≠ "") :
    (errorFactory st tbl ty options).2 = Except.error JSThrown.undefVal ∧
    (errorFactory st tbl ty options).1.factories.lookup ty = st.factories.lookup ty ∧
    (addTranslator st tbl2 name e1p e1t).2 = Except.ok () ∧
    ((((addTranslator st (((addTranslator st tbl2 name e1p e1t).1).2) name e2p e2t).1).2).lookup name)
      = some { pred := e2p, transform := e2t } := by
  refine ⟨?_, ?_, ?_, ?_⟩
  · unfold errorFactory
    rw [if_pos hDup]
  · unfold errorFactory
    rw [if_pos hDup]
    simp only [assertFail]
    exact makeError_preserves_factories_lookup st "assertionError" ty _
  · unfold addTranslator
    rw [if_pos hName]
  · unfold addTranslator
    rw [if_pos hName, if_pos hName]
    exact lookup_setAssoc_self _ _ _

/-- Witness for C8 at concrete inputs: the duplicate factory registration for
oopsieError throws and keeps the table entry; the duplicate translator
registration overwrites. -/
theorem duplicate_registration_witness :
    (errorFactory (initState false "") (defaultTranslatorTable noJq) "oopsieError" none).2
      = Except.error JSThrown.undefVal ∧
    (errorFactory (initState false "") (defaultTranslatorTable noJq) "oopsieError" none).1.factories.lookup "oopsieError"
      = (initState false "").factories.lookup "oopsieError" ∧
    (addTranslator (initState false "") [] "t"
        (fun _ _ => Except.ok true) (fun _ _ => Except.ok (JSVal.str "one"))).2 = Except.ok () ∧
    ((((addTranslator (initState false "")
          (((addTranslator (initState false "") [] "t"
              (fun _ _ => Except.ok true) (fun _ _ => Except.ok (JSVal.str "one"))).1).2)
          "t" (fun _ _ => Except.ok false) (fun _ _ => Except.ok (JSVal.str "two"))).1).2).lookup "t")
      = some { pred := fun _ _ => Except.ok false, transform := fun _ _ => Except.ok (JSVal.str "two") } :=
  duplicate_registration_amended (initState false "") (defaultTranslatorTable noJq)
    "oopsieError" none (by decide) [] "t"
    (fun _ _ => Except.ok true) (fun _ _ => Except.ok false)
    (fun _ _ => Except.ok (JSVal.str "one")) (fun _ _ => Except.ok (JSVal.str "two"))
    (by decide)

/-- Claim C9 (evidence of the code bug): invoking a factory with per-call
options mutates the factory stored defaults — line 107 extends factoryOptions
itself rather than a fresh object — so a later call without options inherits
the earlier override.  Here a factory created with reportImmediately false
is invoked once with reportImmediately true; afterwards the stored default is
true, and a second optionless call builds its record under that leaked
setting. -/
theorem factory_defaults_mutated_eval :
    ((factoryCall
        { errors := [], factories := [("networkError", { reportImmediately := false })],
          canStackTrace := false, stackTraceValue := "" }
        "networkError" (some "m") (some { reportImmediately := some true })).1.factories.lookup
      "networkError") = some { reportImmediately := true } := by
  decide

/-- Claim C10, counterexample to idempotence as stated: on a text carrying
two identifier tokens, one application of the filter removes only the first
token, and a second application removes the second, so the results differ. -/
theorem stripToken_not_idempotent_counterexample :
    filterOutOopsieId (filterOutOopsieId "__oopsieID_0____oopsieID_0__")
      ≠ filterOutOopsieId "__oopsieID_0____oopsieID_0__" := by
  decide

/-- Claim C10 as amended: stripping is a no-op on token-free text; hence
applying the filter twice agrees with applying it once exactly when the first
application leaves no identifier token behind (in particular on the intended
inputs, display messages carrying one token). -/
theorem stripToken_noop_on_token_free (x : String)
    (h : findTokenSplit (filterOutOopsieId x).data = none) :
    filterOutOopsieId (filterOutOopsieId x) = filterOutOopsieId x :=
  filterOutOopsieId_no_match (filterOutOopsieId x) h

/-- Witness for C10: a display message with one token strips to token-free
text, on which a second strip is a no-op. -/
theorem stripToken_noop_witness :
    findTokenSplit (filterOutOopsieId "a__oopsieID_7__b").data = none ∧
    filterOutOopsieId (filterOutOopsieId "a__oopsieID_7__b")
      = filterOutOopsieId "a__oopsieID_7__b" :=
  ⟨by decide, stripToken_noop_on_token_free "a__oopsieID_7__b" (by decide)⟩

/-- Helper: a miss in the $.inArray scan means the value is not in the list. -/
theorem not_mem_of_jqInArrayAux_none {v : JSVal} :
    ∀ (l : List JSVal) (i : Nat), jqInArrayAux v l i = none → v ∉ l := by
  intro l
  induction l with
  | nil => intro i _ hm; simp at hm
  | cons x xs ih =>
    intro i h hmem
    unfold jqInArrayAux at h
    by_cases hx : x = v
    · rw [if_pos hx] at h
      exact Option.noConfusion h
    · rw [if_neg hx] at h
      rcases List.mem_cons.mp hmem with h1 | h2
      · exact hx h1.symm
      · exact ih (i + 1) h h2

theorem not_mem_of_jqInArray_none {v : JSVal} {l : List JSVal}
    (h : jqInArray v l = none) : v ∉ l :=
  not_mem_of_jqInArrayAux_none l 0 h

/-- Helper: objIdxs distributes over append. -/
theorem objIdxs_append (a b : List JSVal) :
    objIdxs (a ++ b) = objIdxs a ++ objIdxs b := by
  unfold objIdxs
  exact List.filterMap_append a b _

/-- Helper: membership in objIdxs is membership of the object value. -/
theorem mem_objIdxs {seen : List JSVal} {i : Nat} :
    i ∈ objIdxs seen ↔ JSVal.obj i ∈ seen := by
  unfold objIdxs
  rw [List.mem_filterMap]
  constructor
  · rintro ⟨a, ha, hfa⟩
    cases a <;> simp_all
  · intro h
    exact ⟨JSVal.obj i, h, rfl⟩

/-- Helper: the seen count is bounded by the number of heap objects. -/
theorem countObjs_le_of_inv (heap : Heap) (seen : List JSVal)
    (hinv : SeenInv heap seen) : countObjs seen ≤ heap.length := by
  obtain ⟨hnd, hlt⟩ := hinv
  have hcard : (objIdxs seen).toFinset.card = (objIdxs seen).length :=
    List.toFinset_card_of_nodup hnd
  have hsub : (objIdxs seen).toFinset ⊆ Finset.range heap.length := by
    intro x hx
    exact Finset.mem_range.mpr (hlt x (List.mem_toFinset.mp hx))
  calc countObjs seen = (objIdxs seen).toFinset.card := hcard.symm
    _ ≤ (Finset.range heap.length).card := Finset.card_le_card hsub
    _ = heap.length := Finset.card_range _

/-- Helper: pushing a fresh in-range object onto the seen list preserves the
invariant and raises the count by one. -/
theorem SeenInv_push_obj {heap : Heap} {seen : List JSVal} {i : Nat}
    (hinv : SeenInv heap seen) (hnm : JSVal.obj i ∉ seen) (hlt : i < heap.length) :
    SeenInv heap (seen ++ [JSVal.obj i])
      ∧ countObjs (seen ++ [JSVal.obj i]) = countObjs seen + 1 := by
  have hid : objIdxs (seen ++ [JSVal.obj i]) = objIdxs seen ++ [i] := by
    rw [objIdxs_append]
    rfl
  have hni : i ∉ objIdxs seen := fun hmem => hnm (mem_objIdxs.mp hmem)
  refine ⟨⟨?_, ?_⟩, ?_⟩
  · rw [hid]
    rw [List.nodup_append]
    refine ⟨hinv.1, List.nodup_singleton i, ?_⟩
    intro a ha hb
    rw [List.mem_singleton] at hb
    exact hni (hb ▸ ha)
  · rw [hid]
    intro j hj
    rcases List.mem_append.mp hj with h1 | h2
    · exact hinv.2 j h1
    · simp at h2
      exact h2 ▸ hlt
  · unfold countObjs
    rw [hid, List.length_append]
    rfl

/-- Helper: pushing a non-object value (null or a RegExp) changes neither the
invariant nor the count. -/
theorem SeenInv_push_nonobj {heap : Heap} {seen : List JSVal} {v : JSVal}
    (hinv : SeenInv heap seen) (hv : ∀ i, v ≠ JSVal.obj i) :
    SeenInv heap (seen ++ [v]) ∧ countObjs (seen ++ [v]) = countObjs seen := by
  have hid : objIdxs (seen ++ [v]) = objIdxs seen := by
    rw [objIdxs_append]
    have : objIdxs [v] = [] := by
      cases v <;> first
        | rfl
        | exact absurd rfl (hv _)
    rw [this, List.append_nil]
  refine ⟨⟨?_, ?_⟩, ?_⟩
  · rw [hid]; exact hinv.1
  · rw [hid]; exact hinv.2
  · unfold countObjs; rw [hid]

/-- Helper: any typeof-object value pushed fresh keeps the invariant and does
not lower the count. -/
theorem SeenInv_push_typeobj {heap : Heap} {seen : List JSVal} {v : JSVal}
    (hinv : SeenInv heap seen) (hobj : typeofIsObject v = true)
    (hnm : v ∉ seen) (hwfv : wfValB heap v = true) :
    SeenInv heap (seen ++ [v]) ∧ countObjs seen ≤ countObjs (seen ++ [v]) := by
  cases v with
  | obj i =>
    have hlt : i < heap.length := by simpa [wfValB] using hwfv
    obtain ⟨h1, h2⟩ := SeenInv_push_obj hinv hnm hlt
    exact ⟨h1, by omega⟩
  | null =>
    obtain ⟨h1, h2⟩ := @SeenInv_push_nonobj heap seen JSVal.null hinv (fun i => by simp)
    exact ⟨h1, h2.ge⟩
  | regexp src =>
    obtain ⟨h1, h2⟩ :=
      @SeenInv_push_nonobj heap seen (JSVal.regexp src) hinv (fun i => by simp)
    exact ⟨h1, h2.ge⟩
  | undef => simp [typeofIsObject] at hobj
  | bool b => simp [typeofIsObject] at hobj
  | num n => simp [typeofIsObject] at hobj
  | nan => simp [typeofIsObject] at hobj
  | inf => simp [typeofIsObject] at hobj
  | neginf => simp [typeofIsObject] at hobj
  | str s => simp [typeofIsObject] at hobj
  | fnV nm => simp [typeofIsObject] at hobj

/-- Helper: in a well-formed heap the field values of an in-range object are
well formed. -/
theorem heapFields_wf {heap : Heap} (hwf : heapWFB heap = true) {i : Nat}
    (hi : i < heap.length) :
    ∀ kv ∈ heapFields heap i, wfValB heap kv.2 = true := by
  intro kv hkv
  have hfields : heapFields heap i = heap[i] := by
    simp [heapFields, List.getElem?_eq_getElem hi]
  rw [hfields] at hkv
  have hmem : heap[i] ∈ heap := List.getElem_mem hi
  have hall := (List.all_eq_true.mp hwf) _ hmem
  exact (List.all_eq_true.mp hall) kv hkv

/-- Helper: with the default translators, a node is either replaced by some
string or passed through unchanged, and a passed-through value is never
undefined or a function (those two are always translated), so JSON.stringify
never drops a node. -/
theorem applyTranslators_default (jq : JQSer) (heap : Heap) (v : JSVal) :
    (∃ s, applyTranslators (defaultTranslatorTable jq) heap v = JSVal.str s) ∨
    (applyTranslators (defaultTranslatorTable jq) heap v = v
      ∧ v ≠ JSVal.undef ∧ ∀ nm, v ≠ JSVal.fnV nm) := by
  cases v with
  | undef => exact Or.inl ⟨_, rfl⟩
  | fnV nm =>
    cases nm with
    | none => exact Or.inl ⟨_, rfl⟩
    | some n =>
      by_cases hn : n = ""
      · subst hn
        exact Or.inl ⟨_, rfl⟩
      · refine Or.inl ⟨"[function: " ++ n ++ "]", ?_⟩
        simp [applyTranslators, runTranslators, defaultTranslatorTable, getFunctionName, hn]
  | regexp src => exact Or.inl ⟨_, rfl⟩
  | nan => exact Or.inl ⟨_, rfl⟩
  | inf => exact Or.inl ⟨_, rfl⟩
  | neginf => exact Or.inl ⟨_, rfl⟩
  | null => exact Or.inr ⟨rfl, by simp, fun nm => by simp⟩
  | bool b => exact Or.inr ⟨rfl, by simp, fun nm => by simp⟩
  | num n => exact Or.inr ⟨rfl, by simp, fun nm => by simp⟩
  | str s => exact Or.inr ⟨rfl, by simp, fun nm => by simp⟩
  | obj i =>
    by_cases hj : isJQuery heap (JSVal.obj i) = true
    · cases hjq : jq heap (JSVal.obj i) with
      | ok s =>
        refine Or.inl ⟨"[jQuery: " ++ s ++ "]", ?_⟩
        simp [applyTranslators, runTranslators, defaultTranslatorTable, isReallyNaN,
          isInfinite, hj, hjq]
      | error m =>
        refine Or.inl ⟨"[translation error]: " ++ m, ?_⟩
        simp [applyTranslators, runTranslators, defaultTranslatorTable, isReallyNaN,
          isInfinite, hj, hjq]
    · refine Or.inr ⟨?_, by simp, fun nm => by simp⟩
      simp [applyTranslators, runTranslators, defaultTranslatorTable, isReallyNaN,
        isInfinite, hj]

/-- Helper: serFieldsWith succeeds and preserves the seen invariant whenever
the per-value serializer does so above a count threshold c0 already met. -/
theorem serFieldsWith_total (heap : Heap)
    (ser : List JSVal → JSVal → Option (Option String) × List JSVal) (c0 : Nat)
    (H : ∀ seen v, SeenInv heap seen → wfValB heap v = true → c0 ≤ countObjs seen →
      (∃ s, (ser seen v).1 = some (some s)) ∧ SeenInv heap (ser seen v).2
        ∧ countObjs seen ≤ countObjs (ser seen v).2) :
    ∀ (fields : List (String × JSVal)) (seen : List JSVal),
      (∀ kv ∈ fields, wfValB heap kv.2 = true) → SeenInv heap seen →
      c0 ≤ countObjs seen →
      (∃ items, (serFieldsWith ser seen fields).1 = some items)
        ∧ SeenInv heap (serFieldsWith ser seen fields).2
        ∧ countObjs seen ≤ countObjs (serFieldsWith ser seen fields).2 := by
  intro fields
  induction fields with
  | nil =>
    intro seen _ hinv _
    exact ⟨⟨[], rfl⟩, hinv, le_refl _⟩
  | cons kv rest ih =>
    intro seen hwfs hinv hc
    obtain ⟨⟨s, hs⟩, hinv2, hmono2⟩ := H seen kv.2 hinv (hwfs kv (by simp)) hc
    have hred : serFieldsWith ser seen (kv :: rest)
        = match ser seen kv.2 with
          | (none, seen2) => (none, seen2)
          | (some none, seen2) => serFieldsWith ser seen2 rest
          | (some (some s), seen2) =>
            match serFieldsWith ser seen2 rest with
            | (none, seen3) => (none, seen3)
            | (some items, seen3) =>
              (some ((jsonQuote kv.1 ++ ":" ++ s) :: items), seen3) := rfl
    rcases hser : ser seen kv.2 with ⟨r1, seen2⟩
    rw [hser] at hs hinv2 hmono2
    simp only at hs hinv2 hmono2
    subst hs
    obtain ⟨⟨items, hitems⟩, hinv3, hmono3⟩ :=
      ih seen2 (fun kv2 hk => hwfs kv2 (by simp [hk])) hinv2 (le_trans hc hmono2)
    rcases hrest : serFieldsWith ser seen2 rest with ⟨r2, seen3⟩
    rw [hrest] at hitems hinv3 hmono3
    simp only at hitems hinv3 hmono3
    subst hitems
    have hfinal : serFieldsWith ser seen (kv :: rest)
        = (some ((jsonQuote kv.1 ++ ":" ++ s) :: items), seen3) := by
      have h1 : serFieldsWith ser seen (kv :: rest)
          = match serFieldsWith ser seen2 rest with
            | (none, s3) => (none, s3)
            | (some its, s3) => (some ((jsonQuote kv.1 ++ ":" ++ s) :: its), s3) := by
        rw [hred, hser]
      rw [h1, hrest]
    rw [hfinal]
    exact ⟨⟨_, rfl⟩, hinv3, le_trans hmono2 hmono3⟩

/-- Helper, the heart of claim C2: with the default translators over a
well-formed heap, the JSON walk with the circular-reference guard always
terminates within fuel bounded by the object count (the walk descends only
into an object on its first sighting) and always produces an encoded text
(nothing is dropped, because undefined and function values are translated to
strings before encoding). -/
theorem serProp_total (jq : JQSer) (heap : Heap) (hwf : heapWFB heap = true) :
    ∀ (fuel : Nat) (seen : List JSVal) (v : JSVal),
      SeenInv heap seen → wfValB heap v = true →
      heap.length + 2 ≤ fuel + countObjs seen →
      (∃ s, (serProp (defaultTranslatorTable jq) heap fuel seen v).1 = some (some s))
        ∧ SeenInv heap (serProp (defaultTranslatorTable jq) heap fuel seen v).2
        ∧ countObjs seen ≤ countObjs (serProp (defaultTranslatorTable jq) heap fuel seen v).2 := by
  intro fuel
  induction fuel with
  | zero =>
    intro seen v hinv _ hle
    exfalso
    have hcnt := countObjs_le_of_inv heap seen hinv
    omega
  | succ fuel ih =>
    intro seen v hinv hwfv hle
    cases hobj : typeofIsObject v with
    | false =>
      rcases applyTranslators_default jq heap v with ⟨s, hstr⟩ | ⟨hpass, hnund, hnfn⟩
      · have hser : serProp (defaultTranslatorTable jq) heap (fuel + 1) seen v
            = (some (some (jsonQuote s)), seen) := by
          simp [serProp, circularRefSafeTranslate, hobj, hstr]
        exact ⟨⟨_, by rw [hser]⟩, by rw [hser]; exact hinv, by rw [hser]⟩
      · cases v with
        | undef => exact absurd rfl hnund
        | fnV nm => exact absurd rfl (hnfn nm)
        | null => simp [typeofIsObject] at hobj
        | regexp src => simp [typeofIsObject] at hobj
        | obj i => simp [typeofIsObject] at hobj
        | bool b =>
          have hser : serProp (defaultTranslatorTable jq) heap (fuel + 1) seen (JSVal.bool b)
              = (some (some (cond b "true" "false")), seen) := by
            simp [serProp, circularRefSafeTranslate, hobj, hpass]
          exact ⟨⟨_, by rw [hser]⟩, by rw [hser]; exact hinv, by rw [hser]⟩
        | num n =>
          have hser : serProp (defaultTranslatorTable jq) heap (fuel + 1) seen (JSVal.num n)
              = (some (some (toString n)), seen) := by
            simp [serProp, circularRefSafeTranslate, hobj, hpass]
          exact ⟨⟨_, by rw [hser]⟩, by rw [hser]; exact hinv, by rw [hser]⟩
        | str s2 =>
          have hser : serProp (defaultTranslatorTable jq) heap (fuel + 1) seen (JSVal.str s2)
              = (some (some (jsonQuote s2)), seen) := by
            simp [serProp, circularRefSafeTranslate, hobj, hpass]
          exact ⟨⟨_, by rw [hser]⟩, by rw [hser]; exact hinv, by rw [hser]⟩
        | nan =>
          have hser : serProp (defaultTranslatorTable jq) heap (fuel + 1) seen JSVal.nan
              = (some (some "null"), seen) := by
            simp [serProp, circularRefSafeTranslate, hobj, hpass]
          exact ⟨⟨_, by rw [hser]⟩, by rw [hser]; exact hinv, by rw [hser]⟩
        | inf =>
          have hser : serProp (defaultTranslatorTable jq) heap (fuel + 1) seen JSVal.inf
              = (some (some "null"), seen) := by
            simp [serProp, circularRefSafeTranslate, hobj, hpass]
          exact ⟨⟨_, by rw [hser]⟩, by rw [hser]; exact hinv, by rw [hser]⟩
        | neginf =>
          have hser : serProp (defaultTranslatorTable jq) heap (fuel + 1) seen JSVal.neginf
              = (some (some "null"), seen) := by
            simp [serProp, circularRefSafeTranslate, hobj, hpass]
          exact ⟨⟨_, by rw [hser]⟩, by rw [hser]; exact hinv, by rw [hser]⟩
    | true =>
      cases hfound : jqInArray v seen with
      | some k =>
        have hser : serProp (defaultTranslatorTable jq) heap (fuel + 1) seen v
            = (some (some (jsonQuote ("JSON.circularRef_" ++ toString k))), seen) := by
          simp [serProp, circularRefSafeTranslate, hobj, hfound]
        exact ⟨⟨_, by rw [hser]⟩, by rw [hser]; exact hinv, by rw [hser]⟩
      | none =>
        have hnm : v ∉ seen := not_mem_of_jqInArray_none hfound
        obtain ⟨hinv1, hmono1⟩ := SeenInv_push_typeobj hinv hobj hnm hwfv
        rcases applyTranslators_default jq heap v with ⟨s, hstr⟩ | ⟨hpass, hnund, hnfn⟩
        · have hser : serProp (defaultTranslatorTable jq) heap (fuel + 1) seen v
              = (some (some (jsonQuote s)), seen ++ [v]) := by
            simp [serProp, circularRefSafeTranslate, hobj, hfound, hstr]
          exact ⟨⟨_, by rw [hser]⟩, by rw [hser]; exact hinv1, by rw [hser]; exact hmono1⟩
        · cases v with
          | undef => simp [typeofIsObject] at hobj
          | bool b => simp [typeofIsObject] at hobj
          | num n => simp [typeofIsObject] at hobj
          | nan => simp [typeofIsObject] at hobj
          | inf => simp [typeofIsObject] at hobj
          | neginf => simp [typeofIsObject] at hobj
          | str s2 => simp [typeofIsObject] at hobj
          | fnV nm => simp [typeofIsObject] at hobj
          | null =>
            have hser : serProp (defaultTranslatorTable jq) heap (fuel + 1) seen JSVal.null
                = (some (some "null"), seen ++ [JSVal.null]) := by
              simp [serProp, circularRefSafeTranslate, hobj, hfound, hpass]
            exact ⟨⟨_, by rw [hser]⟩, by rw [hser]; exact hinv1, by rw [hser]; exact hmono1⟩
          | regexp src =>
            have hser : serProp (defaultTranslatorTable jq) heap (fuel + 1) seen (JSVal.regexp src)
                = (some (some ("\x7b" ++ "\x7d")), seen ++ [JSVal.regexp src]) := by
              simp [serProp, circularRefSafeTranslate, hobj, hfound, hpass]
            exact ⟨⟨_, by rw [hser]⟩, by rw [hser]; exact hinv1, by rw [hser]; exact hmono1⟩
          | obj i =>
            have hlt : i < heap.length := by simpa [wfValB] using hwfv
            obtain ⟨hinv1b, hcount1⟩ := SeenInv_push_obj hinv hnm hlt
            obtain ⟨⟨items, hitems⟩, hinv3, hmono3⟩ :=
              serFieldsWith_total heap (serProp (defaultTranslatorTable jq) heap fuel)
                (countObjs seen + 1)
                (fun seen2 v2 hinv2 hwfv2 hc2 => ih seen2 v2 hinv2 hwfv2 (by omega))
                (heapFields heap i) (seen ++ [JSVal.obj i])
                (heapFields_wf hwf hlt) hinv1b (by omega)
            rcases hfields : serFieldsWith (serProp (defaultTranslatorTable jq) heap fuel)
                (seen ++ [JSVal.obj i]) (heapFields heap i) with ⟨rf, seenF⟩
            rw [hfields] at hitems hinv3 hmono3
            simp only at hitems hinv3 hmono3
            subst hitems
            have hser : serProp (defaultTranslatorTable jq) heap (fuel + 1) seen (JSVal.obj i)
                = (some (some ("\x7b" ++ String.intercalate "," items ++ "\x7d")), seenF) := by
              have h1 : serProp (defaultTranslatorTable jq) heap (fuel + 1) seen (JSVal.obj i)
                  = match serFieldsWith (serProp (defaultTranslatorTable jq) heap fuel)
                        (seen ++ [JSVal.obj i]) (heapFields heap i) with
                    | (none, s2) => (none, s2)
                    | (some its, s2) =>
                      (some (some ("\x7b" ++ String.intercalate "," its ++ "\x7d")), s2) := by
                simp [serProp, circularRefSafeTranslate, hobj, hfound, hpass]
              rw [h1, hfields]
            refine ⟨⟨_, by rw [hser]⟩, by rw [hser]; exact hinv3, ?_⟩
            rw [hser]
            simp only
            omega

/-- Claim C2: with the default translator table (and an arbitrary, possibly
throwing jQuery serializer), stringify returns an encoded text for every
value over every well-formed heap — it neither diverges on cyclic object
graphs nor raises, and a failing transform degrades to an inline placeholder
rather than an exception; moreover the canonical self-referencing object
a.self = a serializes to the circular-reference placeholder form. -/
theorem serialize_total_and_circular_safe :
    (∀ (jq : JQSer) (heap : Heap) (v : JSVal),
        heapWFB heap = true → wfValB heap v = true →
        ∃ s : String, stringify (defaultTranslatorTable jq) heap v = some s) ∧
    stringify (defaultTranslatorTable noJq) [[("self", JSVal.obj 0)]] (JSVal.obj 0)
      = some ("\x7b" ++ "\x22self\x22:\x22JSON.circularRef_0\x22" ++ "\x7d") := by
  constructor
  · intro jq heap v hwf hwfv
    have hinv0 : SeenInv heap [] :=
      ⟨List.nodup_nil, by intro i hi; simp [objIdxs] at hi⟩
    obtain ⟨⟨s, hs⟩, _, _⟩ :=
      serProp_total jq heap hwf (stringifyFuel heap) [] v hinv0 hwfv
        (by simp [stringifyFuel, countObjs, objIdxs])
    refine ⟨s, ?_⟩
    unfold stringify
    rcases hsp : serProp (defaultTranslatorTable jq) heap (stringifyFuel heap) [] v
      with ⟨r, sn⟩
    rw [hsp] at hs
    simp only at hs
    subst hs
    rfl
  · decide

/-- Witness for C2 at a concrete well-formed heap and value. -/
theorem serialize_total_witness :
    ∃ s : String,
      stringify (defaultTranslatorTable noJq) [[("x", JSVal.num 1)]] (JSVal.obj 0)
        = some s :=
  serialize_total_and_circular_safe.1 noJq [[("x", JSVal.num 1)]] (JSVal.obj 0)
    (by decide) (by decide)
